import Mathlib

/-!
# Verification of `jobsparser` (`src/jobsparser/src/jobsparser/cli.py`)

A shallow embedding of the per-site scraping loop `_scrape_single_site`,
the pre-spawn dispatch logic of `main`, the result-aggregation loop of
`main`, and the thread-local logging context, together with theorems
settling the specification's claims about them.

Conventions of the embedding:
* Python ints that are always non-negative in the relevant code paths are
  `Nat`; CLI-supplied values that could be negative are `Int` where that
  matters.
* The external `scrape_jobs` call (opaque I/O) is modelled by an oracle
  `Fetch`: a function from the index of the fetch attempt (how many calls
  this task has made so far), the `offset` and the requested count to a
  `FetchResult` — either a returned record list (`success`) or a raised
  exception (`failure`).  The attempt index lets a single pure function
  describe stateful stubs such as "fail once, then succeed".
* Loops that can fail to terminate (the outer `while` of
  `_scrape_single_site`) take a `fuel : Nat` bound on the number of outer
  iterations and return `none` when the bound is hit; `none` for every
  fuel means the loop never terminates.
* Observable actions (fetch attempts, `time.sleep` calls) are recorded in
  an event trace so that claims about call counts, offsets and sleep
  durations can be stated.
-/

namespace Jobsparser

/-- A job record (`JobRecord`).  The code never inspects its fields, only
counts and forwards them, so an opaque `Nat` stands for one row of the
scraped dataframe. -/
abbrev Job := Nat

/-- Result of one `scrape_jobs` call: either the list of records obtained
from the returned dataframe (`None`/empty dataframe gives `[]`, cli.py
lines 138–141), or an exception (cli.py line 162). -/
inductive FetchResult where
  | success (records : List Job)
  | failure
  deriving DecidableEq, Repr

/-- Fetch oracle: attempt index ↦ offset ↦ requested count ↦ result. -/
abbrev Fetch := Nat → Nat → Nat → FetchResult

/-- The per-run tunables of `_scrape_single_site` that drive the loop:
`results_wanted_for_site`, `batch_size`, `sleep_time`, `max_retries`. -/
structure Config where
  results_wanted : Nat
  batch_size : Nat
  sleep_time : Nat
  max_retries : Nat
  deriving DecidableEq, Repr

/-- The mutable state of one site task: `offset`, `site_all_jobs`
(collected), `found_all_available_jobs_for_site` (exhausted flag), plus
`calls`, the number of fetch attempts made so far (implicit in the real
execution; it indexes the oracle). -/
structure TaskState where
  offset : Nat
  collected : List Job
  exhausted : Bool
  calls : Nat
  deriving DecidableEq, Repr

/-- Observable events of a site task, in program order:
a fetch attempt (offset, requested, number of records received — 0 when
the call raised — and whether it succeeded), the pacing sleep between
successful batches (cli.py line 159), and the error-retry sleep
(cli.py line 167). -/
inductive Event where
  | fetch (offset requested received : Nat) (ok : Bool)
  | paceSleep (duration : Nat)
  | retrySleep (duration : Nat)
  deriving DecidableEq, Repr

/-- How the inner attempt loop (`while retry_count < max_retries`,
cli.py lines 119–171) was exited. -/
inductive InnerExit where
  | continueOuter  -- pace branch, cli.py lines 156–160: sleep then `break`
  | exhaustedPage  -- undersized page, cli.py lines 146–150
  | target         -- reached desired count, cli.py lines 152–154
  | gaveUp         -- retries exhausted, cli.py lines 168–171
  | noAttempt      -- loop condition false on entry: no fetch issued
  deriving DecidableEq, Repr

/-- `iteration_results_wanted = min(batch_size, results_wanted_for_site - len(site_all_jobs))`
(cli.py line 122). -/
def requestedOf (cfg : Config) (s : TaskState) : Nat :=
  min cfg.batch_size (cfg.results_wanted - s.collected.length)

/-- The inner attempt loop of `_scrape_single_site` (cli.py lines
119–171): one whole run of `while retry_count < max_retries`, returning
the state when the loop is left, the events emitted, and which branch
left it.  On success (no exception) the records are appended and
`offset += iteration_results_wanted` (line 144 — the requested count, not
the received count); on failure `retry_count` increments, the error-retry
sleep `sleep_time * (retry_count + 1)` runs (lines 164–167), and the loop
gives up once `retry_count >= max_retries` (lines 168–171), setting
`found_all_available_jobs_for_site = True`.

`gas` is a structural bound on the remaining iterations; the loop runs at
most `max_retries - retry_count` more times, and since the `gas = 0` case
returns the same value as the loop's own exit test
(`retry < max_retries` false), `attemptLoopAux` agrees with the Python
loop whenever `max_retries - retry ≤ gas`, which is how `attemptLoop`
invokes it. -/
def attemptLoopAux (fetch : Fetch) (cfg : Config) :
    Nat → TaskState → Nat → TaskState × List Event × InnerExit
  | 0, s, _ => (s, [], .noAttempt)
  | gas + 1, s, retry =>
    if retry < cfg.max_retries then
      let req := requestedOf cfg s
      match fetch s.calls s.offset req with
      | .success records =>
        let s' : TaskState :=
          { offset := s.offset + req
            collected := s.collected ++ records
            exhausted := s.exhausted
            calls := s.calls + 1 }
        if records.length < req then
          ({ s' with exhausted := true },
            [.fetch s.offset req records.length true], .exhaustedPage)
        else if cfg.results_wanted ≤ s'.collected.length then
          (s', [.fetch s.offset req records.length true], .target)
        else
          (s', [.fetch s.offset req records.length true, .paceSleep cfg.sleep_time],
            .continueOuter)
      | .failure =>
        let retry' := retry + 1
        let s' : TaskState := { s with calls := s.calls + 1 }
        if cfg.max_retries ≤ retry' then
          ({ s' with exhausted := true },
            [.fetch s.offset req 0 false, .retrySleep (cfg.sleep_time * (retry' + 1))],
            .gaveUp)
        else
          let rest := attemptLoopAux fetch cfg gas s' retry'
          (rest.1,
            .fetch s.offset req 0 false ::
              .retrySleep (cfg.sleep_time * (retry' + 1)) :: rest.2.1,
            rest.2.2)
    else
      (s, [], .noAttempt)

/-- The inner attempt loop entered with retry counter `retry`
(`_scrape_single_site` enters it with `retry_count = 0`, cli.py
line 118). -/
def attemptLoop (fetch : Fetch) (cfg : Config) (s : TaskState) (retry : Nat) :
    TaskState × List Event × InnerExit :=
  attemptLoopAux fetch cfg (cfg.max_retries - retry) s retry

/-- How the task ended: `done` for a normal exit of the outer loop
(undersized page, target reached, or the loop condition false at entry),
`gaveUp` when the retry budget was exhausted (cli.py lines 168–171; the
code logs "Max retries reached. Moving on."). -/
inductive Outcome where
  | done
  | gaveUp
  deriving DecidableEq, Repr

/-- A finished run: final state, event trace, and how it ended. -/
structure RunResult where
  state : TaskState
  events : List Event
  outcome : Outcome
  deriving DecidableEq, Repr

/-- The outer loop of `_scrape_single_site` (cli.py line 117):
`while len(site_all_jobs) < results_wanted_for_site and not found_all_available_jobs_for_site`.
`fuel` bounds the number of outer iterations; `none` means the bound was
reached without the loop terminating. -/
def outerLoop (fetch : Fetch) (cfg : Config) : Nat → TaskState → Option RunResult
  | 0, _ => none
  | fuel + 1, s =>
    if s.collected.length < cfg.results_wanted ∧ s.exhausted = false then
      match attemptLoop fetch cfg s 0 with
      | (s', evs, exit) =>
        match exit with
        | .continueOuter =>
          match outerLoop fetch cfg fuel s' with
          | none => none
          | some r => some ⟨r.state, evs ++ r.events, r.outcome⟩
        | .noAttempt =>
          match outerLoop fetch cfg fuel s' with
          | none => none
          | some r => some ⟨r.state, evs ++ r.events, r.outcome⟩
        | .exhaustedPage => some ⟨s', evs, .done⟩
        | .target => some ⟨s', evs, .done⟩
        | .gaveUp => some ⟨s', evs, .gaveUp⟩
    else
      some ⟨s, [], .done⟩

/-- `_scrape_single_site`, from its initial state (`offset = 0`,
`site_all_jobs = []`, `found_all_available_jobs_for_site = False`,
cli.py lines 111–113).  The Python function returns `site_all_jobs`
only; the trace and outcome are the observable behaviour. -/
def scrapeSingleSite (fetch : Fetch) (cfg : Config) (fuel : Nat) : Option RunResult :=
  outerLoop fetch cfg fuel ⟨0, [], false, 0⟩

/-- The value `_scrape_single_site` actually returns to its caller
(cli.py line 177): the collected job list, nothing else. -/
def taskReturn (r : RunResult) : List Job :=
  r.state.collected

/-! ## Trace observations -/

/-- The fetch attempts of a trace (both successful and failed ones). -/
def fetchEvents : List Event → List Event
  | [] => []
  | e@(.fetch _ _ _ _) :: rest => e :: fetchEvents rest
  | _ :: rest => fetchEvents rest

/-- Total number of records received over the successful fetches of a
trace. -/
def receivedSum : List Event → Nat
  | [] => 0
  | .fetch _ _ received true :: rest => received + receivedSum rest
  | _ :: rest => receivedSum rest

/-- Total requested count over the successful fetches of a trace (the
amount the code adds to `offset`, cli.py line 144). -/
def okRequestedSum : List Event → Nat
  | [] => 0
  | .fetch _ requested _ true :: rest => requested + okRequestedSum rest
  | _ :: rest => okRequestedSum rest

/-- The durations of the error-retry sleeps of a trace, in order. -/
def retrySleeps : List Event → List Nat
  | [] => []
  | .retrySleep d :: rest => d :: retrySleeps rest
  | _ :: rest => retrySleeps rest

/-- Offset and requested count of the first fetch attempt of a trace,
if any. -/
def firstFetch : List Event → Option (Nat × Nat)
  | [] => none
  | .fetch off req _ _ :: _ => some (off, req)
  | _ :: rest => firstFetch rest

/-- Every fetch attempt of the trace is issued at an offset equal to the
total number of records received before it: no record is skipped and
none is fetched twice. -/
def offsetsMatchReceived : Nat → List Event → Prop
  | _, [] => True
  | n, .fetch off _ received true :: rest =>
      off = n ∧ offsetsMatchReceived (n + received) rest
  | n, .fetch off _ _ false :: rest => off = n ∧ offsetsMatchReceived n rest
  | n, _ :: rest => offsetsMatchReceived n rest

/-- A successful fetch that returned fewer records than requested is the
last event of the trace: nothing at all happens after it. -/
def undersizedStops : List Event → Prop
  | [] => True
  | .fetch _ req received true :: rest =>
      (received < req → rest = []) ∧ undersizedStops rest
  | _ :: rest => undersizedStops rest

/-- Whether the trace contains a successful fetch that returned fewer
records than requested. -/
def hasUndersized : List Event → Bool
  | [] => false
  | .fetch _ req received true :: rest => received < req || hasUndersized rest
  | _ :: rest => hasUndersized rest

/-- After every failed fetch attempt, the next fetch attempt of the
trace (when there is one) retries the same offset with the same
requested count. -/
def retrySameOffset : List Event → Prop
  | [] => True
  | .fetch off req _ false :: rest =>
      (∀ p ∈ firstFetch rest, p = (off, req)) ∧ retrySameOffset rest
  | _ :: rest => retrySameOffset rest

/-- Every failed fetch of the trace is eventually followed by another
fetch attempt inside the trace. -/
def failsCovered : List Event → Prop
  | [] => True
  | .fetch _ _ _ false :: rest => (firstFetch rest).isSome ∧ failsCovered rest
  | _ :: rest => failsCovered rest

/-- Every fetch attempt of the trace requests at least one and at most
`B` records. -/
def fetchBounds (B : Nat) : List Event → Prop
  | [] => True
  | .fetch _ req _ _ :: rest => (1 ≤ req ∧ req ≤ B) ∧ fetchBounds B rest
  | _ :: rest => fetchBounds B rest

/-- The trace of `k` consecutive failed attempts at offset `off`
requesting `req`, entered with `retry_count = r`: each failure is
followed by its error-retry sleep `sleep_time * (retry_count + 1)` with
the already-incremented counter (cli.py lines 164–167). -/
def failTrace (off req sleep : Nat) : Nat → Nat → List Event
  | _, 0 => []
  | r, k + 1 =>
      .fetch off req 0 false :: .retrySleep (sleep * (r + 2)) ::
        failTrace off req sleep (r + 1) k

/-- The run never terminates: every iteration bound is exhausted. -/
def loopsForever (fetch : Fetch) (cfg : Config) : Prop :=
  ∀ fuel, scrapeSingleSite fetch cfg fuel = none

/-- Ceiling division, `⌈a / b⌉`. -/
def ceilDiv (a b : Nat) : Nat :=
  (a + b - 1) / b

/-! ## Trace lemmas -/

theorem fetchEvents_append (l r : List Event) :
    fetchEvents (l ++ r) = fetchEvents l ++ fetchEvents r := by
  induction l with
  | nil => rfl
  | cons e rest ih => cases e <;> simp [fetchEvents, ih]

theorem receivedSum_append (l r : List Event) :
    receivedSum (l ++ r) = receivedSum l + receivedSum r := by
  induction l with
  | nil => simp [receivedSum]
  | cons e rest ih =>
    cases e with
    | fetch off req rcv ok => cases ok <;> simp [receivedSum, ih] <;> omega
    | paceSleep d => simp [receivedSum, ih]
    | retrySleep d => simp [receivedSum, ih]

theorem okRequestedSum_append (l r : List Event) :
    okRequestedSum (l ++ r) = okRequestedSum l + okRequestedSum r := by
  induction l with
  | nil => simp [okRequestedSum]
  | cons e rest ih =>
    cases e with
    | fetch off req rcv ok => cases ok <;> simp [okRequestedSum, ih] <;> omega
    | paceSleep d => simp [okRequestedSum, ih]
    | retrySleep d => simp [okRequestedSum, ih]

theorem retrySleeps_append (l r : List Event) :
    retrySleeps (l ++ r) = retrySleeps l ++ retrySleeps r := by
  induction l with
  | nil => rfl
  | cons e rest ih => cases e <;> simp [retrySleeps, ih]

theorem firstFetch_append (l r : List Event) :
    firstFetch (l ++ r) = (firstFetch l).or (firstFetch r) := by
  induction l with
  | nil => rfl
  | cons e rest ih => cases e <;> simp [firstFetch, ih]

theorem offsetsMatchReceived_append {l r : List Event} {n : Nat}
    (hl : offsetsMatchReceived n l)
    (hr : offsetsMatchReceived (n + receivedSum l) r) :
    offsetsMatchReceived n (l ++ r) := by
  induction l generalizing n with
  | nil => simpa [receivedSum] using hr
  | cons e rest ih =>
    cases e with
    | fetch off req rcv ok =>
      cases ok with
      | true =>
        obtain ⟨h1, h2⟩ := hl
        refine ⟨h1, ih h2 ?_⟩
        have : n + rcv + receivedSum rest = n + receivedSum (Event.fetch off req rcv true :: rest) := by
          simp [receivedSum]; omega
        simpa [this] using hr
      | false =>
        obtain ⟨h1, h2⟩ := hl
        exact ⟨h1, ih h2 (by simpa [receivedSum] using hr)⟩
    | paceSleep d => exact ih hl (by simpa [receivedSum] using hr)
    | retrySleep d => exact ih hl (by simpa [receivedSum] using hr)

theorem undersizedStops_append {l r : List Event}
    (hl : undersizedStops l) (hno : hasUndersized l = false)
    (hr : undersizedStops r) :
    undersizedStops (l ++ r) := by
  induction l with
  | nil => simpa using hr
  | cons e rest ih =>
    cases e with
    | fetch off req rcv ok =>
      cases ok with
      | true =>
        obtain ⟨h1, h2⟩ := hl
        simp only [hasUndersized, Bool.or_eq_false_iff, decide_eq_false_iff_not] at hno
        exact ⟨fun hlt => absurd hlt hno.1, ih h2 hno.2⟩
      | false => exact ih hl (by simpa [hasUndersized] using hno)
    | paceSleep d => exact ih hl (by simpa [hasUndersized] using hno)
    | retrySleep d => exact ih hl (by simpa [hasUndersized] using hno)

theorem hasUndersized_append (l r : List Event) :
    hasUndersized (l ++ r) = (hasUndersized l || hasUndersized r) := by
  induction l with
  | nil => rfl
  | cons e rest ih =>
    cases e with
    | fetch off req rcv ok =>
      cases ok <;> simp [hasUndersized, ih, Bool.or_assoc]
    | paceSleep d => simp [hasUndersized, ih]
    | retrySleep d => simp [hasUndersized, ih]

theorem retrySameOffset_append {l r : List Event}
    (hl : retrySameOffset l) (hr : retrySameOffset r)
    (hcov : failsCovered l ∨ r = []) :
    retrySameOffset (l ++ r) := by
  induction l with
  | nil => simpa using hr
  | cons e rest ih =>
    cases e with
    | fetch off req rcv ok =>
      cases ok with
      | true =>
        refine ih hl ?_
        rcases hcov with h | h
        · exact Or.inl h
        · exact Or.inr h
      | false =>
        obtain ⟨h1, h2⟩ := hl
        rcases hcov with hc | hc
        · obtain ⟨hsome, hcov'⟩ := hc
          refine ⟨?_, ih h2 (Or.inl hcov')⟩
          intro p hp
          rw [List.append_eq, firstFetch_append] at hp
          rcases hf : firstFetch rest with _ | q
          · rw [hf] at hsome; simp [Option.isSome] at hsome
          · rw [hf] at hp; simp [Option.or] at hp
            exact h1 p (by rw [hf, hp]; simp)
        · subst hc
          simpa using ⟨h1, h2⟩
    | paceSleep d =>
      refine ih hl ?_
      rcases hcov with h | h
      · exact Or.inl h
      · exact Or.inr h
    | retrySleep d =>
      refine ih hl ?_
      rcases hcov with h | h
      · exact Or.inl h
      · exact Or.inr h

theorem fetchBounds_append {B : Nat} {l r : List Event}
    (hl : fetchBounds B l) (hr : fetchBounds B r) :
    fetchBounds B (l ++ r) := by
  induction l with
  | nil => simpa using hr
  | cons e rest ih =>
    cases e with
    | fetch off req rcv ok => exact ⟨hl.1, ih hl.2⟩
    | paceSleep d => exact ih hl
    | retrySleep d => exact ih hl

/-! ## Unfolding the attempt loop -/

/-- When the attempt loop's condition `retry_count < max_retries` is
false on entry, no fetch is attempted and the state is untouched. -/
theorem attemptLoop_stop (fetch : Fetch) (cfg : Config) (s : TaskState) (retry : Nat)
    (h : ¬ retry < cfg.max_retries) :
    attemptLoop fetch cfg s retry = (s, [], .noAttempt) := by
  unfold attemptLoop
  have h0 : cfg.max_retries - retry = 0 := by omega
  rw [h0]
  rfl

/-- One unfolding of the attempt loop when its condition holds: the
faithful rendering of cli.py lines 119–171 with the recursive occurrence
expressed through `attemptLoop` itself. -/
theorem attemptLoop_eq (fetch : Fetch) (cfg : Config) (s : TaskState) (retry : Nat)
    (h : retry < cfg.max_retries) :
    attemptLoop fetch cfg s retry =
      match fetch s.calls s.offset (requestedOf cfg s) with
      | .success records =>
        if records.length < requestedOf cfg s then
          (⟨s.offset + requestedOf cfg s, s.collected ++ records, true, s.calls + 1⟩,
            [.fetch s.offset (requestedOf cfg s) records.length true], .exhaustedPage)
        else if cfg.results_wanted ≤ (s.collected ++ records).length then
          (⟨s.offset + requestedOf cfg s, s.collected ++ records, s.exhausted, s.calls + 1⟩,
            [.fetch s.offset (requestedOf cfg s) records.length true], .target)
        else
          (⟨s.offset + requestedOf cfg s, s.collected ++ records, s.exhausted, s.calls + 1⟩,
            [.fetch s.offset (requestedOf cfg s) records.length true,
              .paceSleep cfg.sleep_time],
            .continueOuter)
      | .failure =>
        if cfg.max_retries ≤ retry + 1 then
          ({ s with exhausted := true, calls := s.calls + 1 },
            [.fetch s.offset (requestedOf cfg s) 0 false,
              .retrySleep (cfg.sleep_time * (retry + 2))],
            .gaveUp)
        else
          ((attemptLoop fetch cfg { s with calls := s.calls + 1 } (retry + 1)).1,
            .fetch s.offset (requestedOf cfg s) 0 false ::
              .retrySleep (cfg.sleep_time * (retry + 2)) ::
              (attemptLoop fetch cfg { s with calls := s.calls + 1 } (retry + 1)).2.1,
            (attemptLoop fetch cfg { s with calls := s.calls + 1 } (retry + 1)).2.2) := by
  obtain ⟨k, hk⟩ : ∃ k, cfg.max_retries - retry = k + 1 :=
    ⟨cfg.max_retries - retry - 1, by omega⟩
  have hk' : k = cfg.max_retries - (retry + 1) := by omega
  unfold attemptLoop
  rw [hk, hk']
  show attemptLoopAux fetch cfg (cfg.max_retries - (retry + 1) + 1) s retry = _
  rw [attemptLoopAux, if_pos h]

/-- Success case of one unfolding of the attempt loop. -/
theorem attemptLoop_success_eq (fetch : Fetch) (cfg : Config) (s : TaskState)
    (retry : Nat) (records : List Job) (h : retry < cfg.max_retries)
    (hf : fetch s.calls s.offset (requestedOf cfg s) = .success records) :
    attemptLoop fetch cfg s retry =
      if records.length < requestedOf cfg s then
        (⟨s.offset + requestedOf cfg s, s.collected ++ records, true, s.calls + 1⟩,
          [.fetch s.offset (requestedOf cfg s) records.length true], .exhaustedPage)
      else if cfg.results_wanted ≤ (s.collected ++ records).length then
        (⟨s.offset + requestedOf cfg s, s.collected ++ records, s.exhausted, s.calls + 1⟩,
          [.fetch s.offset (requestedOf cfg s) records.length true], .target)
      else
        (⟨s.offset + requestedOf cfg s, s.collected ++ records, s.exhausted, s.calls + 1⟩,
          [.fetch s.offset (requestedOf cfg s) records.length true,
            .paceSleep cfg.sleep_time],
          .continueOuter) := by
  rw [attemptLoop_eq fetch cfg s retry h, hf]

/-- Failure case of one unfolding of the attempt loop. -/
theorem attemptLoop_failure_eq (fetch : Fetch) (cfg : Config) (s : TaskState)
    (retry : Nat) (h : retry < cfg.max_retries)
    (hf : fetch s.calls s.offset (requestedOf cfg s) = .failure) :
    attemptLoop fetch cfg s retry =
      if cfg.max_retries ≤ retry + 1 then
        ({ s with exhausted := true, calls := s.calls + 1 },
          [.fetch s.offset (requestedOf cfg s) 0 false,
            .retrySleep (cfg.sleep_time * (retry + 2))],
          .gaveUp)
      else
        ((attemptLoop fetch cfg { s with calls := s.calls + 1 } (retry + 1)).1,
          .fetch s.offset (requestedOf cfg s) 0 false ::
            .retrySleep (cfg.sleep_time * (retry + 2)) ::
            (attemptLoop fetch cfg { s with calls := s.calls + 1 } (retry + 1)).2.1,
          (attemptLoop fetch cfg { s with calls := s.calls + 1 } (retry + 1)).2.2) := by
  rw [attemptLoop_eq fetch cfg s retry h, hf]

/-- Whenever the attempt loop runs at all, its first event is a fetch at
the entry state's offset with the entry state's requested count. -/
theorem attemptLoop_firstFetch (fetch : Fetch) (cfg : Config) (s : TaskState)
    (retry : Nat) (h : retry < cfg.max_retries) :
    firstFetch (attemptLoop fetch cfg s retry).2.1 =
      some (s.offset, requestedOf cfg s) := by
  cases hf : fetch s.calls s.offset (requestedOf cfg s) with
  | success records =>
    rw [attemptLoop_success_eq fetch cfg s retry records h hf]
    split_ifs <;> simp [firstFetch]
  | failure =>
    rw [attemptLoop_failure_eq fetch cfg s retry h hf]
    split_ifs <;> simp [firstFetch]

/-- State bookkeeping of one whole run of the attempt loop: the
collected list grows by exactly the records received, the offset by
exactly the requested counts of the successful fetches (cli.py
line 144), and each exit kind pins down the final flags. -/
theorem attemptLoop_state (fetch : Fetch) (cfg : Config) (s : TaskState) (retry : Nat) :
    (attemptLoop fetch cfg s retry).1.collected.length =
        s.collected.length + receivedSum (attemptLoop fetch cfg s retry).2.1 ∧
    (attemptLoop fetch cfg s retry).1.offset =
        s.offset + okRequestedSum (attemptLoop fetch cfg s retry).2.1 ∧
    ((attemptLoop fetch cfg s retry).2.2 = .noAttempt →
        ¬ retry < cfg.max_retries ∧ (attemptLoop fetch cfg s retry).1 = s ∧
          (attemptLoop fetch cfg s retry).2.1 = []) ∧
    ((attemptLoop fetch cfg s retry).2.2 = .gaveUp →
        (attemptLoop fetch cfg s retry).1.exhausted = true ∧
        (attemptLoop fetch cfg s retry).1.collected = s.collected ∧
        (attemptLoop fetch cfg s retry).1.offset = s.offset) ∧
    ((attemptLoop fetch cfg s retry).2.2 = .exhaustedPage →
        (attemptLoop fetch cfg s retry).1.exhausted = true) ∧
    ((attemptLoop fetch cfg s retry).2.2 = .target →
        cfg.results_wanted ≤ (attemptLoop fetch cfg s retry).1.collected.length) ∧
    ((attemptLoop fetch cfg s retry).2.2 = .continueOuter →
        (attemptLoop fetch cfg s retry).1.exhausted = s.exhausted ∧
        (attemptLoop fetch cfg s retry).1.collected.length < cfg.results_wanted) := by
  suffices H : ∀ n s retry, cfg.max_retries - retry ≤ n →
      (attemptLoop fetch cfg s retry).1.collected.length =
          s.collected.length + receivedSum (attemptLoop fetch cfg s retry).2.1 ∧
      (attemptLoop fetch cfg s retry).1.offset =
          s.offset + okRequestedSum (attemptLoop fetch cfg s retry).2.1 ∧
      ((attemptLoop fetch cfg s retry).2.2 = .noAttempt →
          ¬ retry < cfg.max_retries ∧ (attemptLoop fetch cfg s retry).1 = s ∧
            (attemptLoop fetch cfg s retry).2.1 = []) ∧
      ((attemptLoop fetch cfg s retry).2.2 = .gaveUp →
          (attemptLoop fetch cfg s retry).1.exhausted = true ∧
          (attemptLoop fetch cfg s retry).1.collected = s.collected ∧
          (attemptLoop fetch cfg s retry).1.offset = s.offset) ∧
      ((attemptLoop fetch cfg s retry).2.2 = .exhaustedPage →
          (attemptLoop fetch cfg s retry).1.exhausted = true) ∧
      ((attemptLoop fetch cfg s retry).2.2 = .target →
          cfg.results_wanted ≤ (attemptLoop fetch cfg s retry).1.collected.length) ∧
      ((attemptLoop fetch cfg s retry).2.2 = .continueOuter →
          (attemptLoop fetch cfg s retry).1.exhausted = s.exhausted ∧
          (attemptLoop fetch cfg s retry).1.collected.length < cfg.results_wanted) by
    exact H (cfg.max_retries - retry) s retry le_rfl
  intro n
  induction n with
  | zero =>
    intro s retry hn
    rw [attemptLoop_stop fetch cfg s retry (by omega)]
    simp [receivedSum, okRequestedSum]
    omega
  | succ n ih =>
    intro s retry hn
    by_cases hr : retry < cfg.max_retries
    · cases hf : fetch s.calls s.offset (requestedOf cfg s) with
      | success records =>
        rw [attemptLoop_success_eq fetch cfg s retry records hr hf]
        split_ifs with h1 h2 <;>
          simp_all [receivedSum, okRequestedSum]
      | failure =>
        rw [attemptLoop_failure_eq fetch cfg s retry hr hf]
        by_cases hg : cfg.max_retries ≤ retry + 1
        · rw [if_pos hg]
          simp [receivedSum, okRequestedSum]
        · rw [if_neg hg]
          obtain ⟨ih1, ih2, ih3, ih4, ih5, ih6, ih7⟩ :=
            ih { s with calls := s.calls + 1 } (retry + 1) (by omega)
          refine ⟨?_, ?_, ?_, ?_, ?_, ?_, ?_⟩
          · simpa [receivedSum] using ih1
          · simpa [okRequestedSum] using ih2
          · intro hx
            exact absurd (by omega : retry + 1 < cfg.max_retries) (ih3 hx).1
          · intro hx
            simpa [receivedSum] using ih4 hx
          · intro hx
            exact ih5 hx
          · intro hx
            exact ih6 hx
          · intro hx
            exact ih7 hx
    · rw [attemptLoop_stop fetch cfg s retry hr]
      simp [receivedSum, okRequestedSum, hr]

/-- Trace shape of one whole run of the attempt loop: fetches stay at
the entry offset until a success moves it, an undersized success is the
final event and forces the `exhaustedPage` exit, every failed attempt's
next fetch (within the loop) repeats the same offset and requested
count, and any exit other than `gaveUp`/`noAttempt` leaves no failed
fetch without a later fetch. -/
theorem attemptLoop_trace (fetch : Fetch) (cfg : Config) (s : TaskState) (retry : Nat) :
    offsetsMatchReceived s.offset (attemptLoop fetch cfg s retry).2.1 ∧
    undersizedStops (attemptLoop fetch cfg s retry).2.1 ∧
    (hasUndersized (attemptLoop fetch cfg s retry).2.1 = true →
      (attemptLoop fetch cfg s retry).2.2 = .exhaustedPage) ∧
    retrySameOffset (attemptLoop fetch cfg s retry).2.1 ∧
    ((attemptLoop fetch cfg s retry).2.2 = .continueOuter ∨
      (attemptLoop fetch cfg s retry).2.2 = .exhaustedPage ∨
      (attemptLoop fetch cfg s retry).2.2 = .target →
      failsCovered (attemptLoop fetch cfg s retry).2.1) := by
  suffices H : ∀ n s retry, cfg.max_retries - retry ≤ n →
      offsetsMatchReceived s.offset (attemptLoop fetch cfg s retry).2.1 ∧
      undersizedStops (attemptLoop fetch cfg s retry).2.1 ∧
      (hasUndersized (attemptLoop fetch cfg s retry).2.1 = true →
        (attemptLoop fetch cfg s retry).2.2 = .exhaustedPage) ∧
      retrySameOffset (attemptLoop fetch cfg s retry).2.1 ∧
      ((attemptLoop fetch cfg s retry).2.2 = .continueOuter ∨
        (attemptLoop fetch cfg s retry).2.2 = .exhaustedPage ∨
        (attemptLoop fetch cfg s retry).2.2 = .target →
        failsCovered (attemptLoop fetch cfg s retry).2.1) by
    exact H (cfg.max_retries - retry) s retry le_rfl
  intro n
  induction n with
  | zero =>
    intro s retry hn
    rw [attemptLoop_stop fetch cfg s retry (by omega)]
    simp [offsetsMatchReceived, undersizedStops, hasUndersized, retrySameOffset,
      failsCovered]
  | succ n ih =>
    intro s retry hn
    by_cases hr : retry < cfg.max_retries
    · cases hf : fetch s.calls s.offset (requestedOf cfg s) with
      | success records =>
        rw [attemptLoop_success_eq fetch cfg s retry records hr hf]
        split_ifs with h1 h2 <;>
          simp [offsetsMatchReceived, undersizedStops, hasUndersized,
            retrySameOffset, failsCovered, firstFetch, h1]
      | failure =>
        by_cases hg : cfg.max_retries ≤ retry + 1
        · rw [attemptLoop_failure_eq fetch cfg s retry hr hf, if_pos hg]
          simp [offsetsMatchReceived, undersizedStops, hasUndersized,
            retrySameOffset, failsCovered, firstFetch]
        · have hr' : retry + 1 < cfg.max_retries := by omega
          obtain ⟨ih1, ih2, ih3, ih4, ih5⟩ :=
            ih { s with calls := s.calls + 1 } (retry + 1) (by omega)
          have hfirst := attemptLoop_firstFetch fetch cfg
            { s with calls := s.calls + 1 } (retry + 1) hr'
          rw [attemptLoop_failure_eq fetch cfg s retry hr hf, if_neg hg]
          refine ⟨⟨rfl, ih1⟩, ih2, ?_, ⟨?_, ih4⟩, ?_⟩
          · intro hx
            exact ih3 (by simpa [hasUndersized] using hx)
          · intro p hp
            simp only [firstFetch] at hp
            rw [hfirst] at hp
            simp only [Option.mem_def, Option.some.injEq] at hp
            subst hp
            rfl
          · intro hx
            refine ⟨?_, ih5 hx⟩
            simp only [firstFetch]
            rw [hfirst]
            rfl
    · rw [attemptLoop_stop fetch cfg s retry hr]
      simp [offsetsMatchReceived, undersizedStops, hasUndersized, retrySameOffset,
        failsCovered]

/-- The fetch capability returns at most the requested number of records
(the guarantee of spec §6 for `scrape_jobs`). -/
def FetchBounded (fetch : Fetch) : Prop :=
  ∀ i off req recs, fetch i off req = .success recs → recs.length ≤ req

/-- Under a bounded fetch capability: a `continueOuter` exit received
exactly what it requested (so the offset moved by exactly the records
received), and the collected list never outgrows `results_wanted`. -/
theorem attemptLoop_bounded (fetch : Fetch) (cfg : Config) (s : TaskState)
    (retry : Nat) (hb : FetchBounded fetch) :
    ((attemptLoop fetch cfg s retry).2.2 = .continueOuter →
      okRequestedSum (attemptLoop fetch cfg s retry).2.1 =
        receivedSum (attemptLoop fetch cfg s retry).2.1) ∧
    (s.collected.length < cfg.results_wanted →
      (attemptLoop fetch cfg s retry).1.collected.length ≤ cfg.results_wanted) := by
  suffices H : ∀ n s retry, cfg.max_retries - retry ≤ n →
      ((attemptLoop fetch cfg s retry).2.2 = .continueOuter →
        okRequestedSum (attemptLoop fetch cfg s retry).2.1 =
          receivedSum (attemptLoop fetch cfg s retry).2.1) ∧
      (s.collected.length < cfg.results_wanted →
        (attemptLoop fetch cfg s retry).1.collected.length ≤ cfg.results_wanted) by
    exact H (cfg.max_retries - retry) s retry le_rfl
  intro n
  induction n with
  | zero =>
    intro s retry hn
    rw [attemptLoop_stop fetch cfg s retry (by omega)]
    simp
    omega
  | succ n ih =>
    intro s retry hn
    by_cases hr : retry < cfg.max_retries
    · cases hf : fetch s.calls s.offset (requestedOf cfg s) with
      | success records =>
        have hrec : records.length ≤ requestedOf cfg s := hb _ _ _ _ hf
        have hreq : requestedOf cfg s ≤ cfg.results_wanted - s.collected.length :=
          min_le_right _ _
        rw [attemptLoop_success_eq fetch cfg s retry records hr hf]
        split_ifs with h1 h2 <;>
          simp_all [receivedSum, okRequestedSum] <;> omega
      | failure =>
        by_cases hg : cfg.max_retries ≤ retry + 1
        · rw [attemptLoop_failure_eq fetch cfg s retry hr hf, if_pos hg]
          simp
          omega
        · rw [attemptLoop_failure_eq fetch cfg s retry hr hf, if_neg hg]
          obtain ⟨ih1, ih2⟩ := ih { s with calls := s.calls + 1 } (retry + 1) (by omega)
          exact ⟨fun hx => by simpa [receivedSum, okRequestedSum] using ih1 hx,
            fun hx => ih2 hx⟩
    · rw [attemptLoop_stop fetch cfg s retry hr]
      simp
      omega

/-- When `batch_size ≥ 1` and the target is not yet reached, every fetch
attempt of the attempt loop requests between 1 and `batch_size`
records. -/
theorem attemptLoop_fetchBounds (fetch : Fetch) (cfg : Config) (s : TaskState)
    (retry : Nat) (hB : 1 ≤ cfg.batch_size)
    (hlt : s.collected.length < cfg.results_wanted) :
    fetchBounds cfg.batch_size (attemptLoop fetch cfg s retry).2.1 := by
  have hreq1 : 1 ≤ requestedOf cfg s := by
    unfold requestedOf
    omega
  have hreq2 : requestedOf cfg s ≤ cfg.batch_size := min_le_left _ _
  suffices H : ∀ n s retry, cfg.max_retries - retry ≤ n →
      1 ≤ requestedOf cfg s → requestedOf cfg s ≤ cfg.batch_size →
      fetchBounds cfg.batch_size (attemptLoop fetch cfg s retry).2.1 by
    exact H (cfg.max_retries - retry) s retry le_rfl hreq1 hreq2
  intro n
  induction n with
  | zero =>
    intro s retry hn _ _
    rw [attemptLoop_stop fetch cfg s retry (by omega)]
    simp [fetchBounds]
  | succ n ih =>
    intro s retry hn h1 h2
    by_cases hr : retry < cfg.max_retries
    · cases hf : fetch s.calls s.offset (requestedOf cfg s) with
      | success records =>
        rw [attemptLoop_success_eq fetch cfg s retry records hr hf]
        split_ifs <;> exact ⟨⟨h1, h2⟩, by simp [fetchBounds]⟩
      | failure =>
        by_cases hg : cfg.max_retries ≤ retry + 1
        · rw [attemptLoop_failure_eq fetch cfg s retry hr hf, if_pos hg]
          exact ⟨⟨h1, h2⟩, by simp [fetchBounds]⟩
        · rw [attemptLoop_failure_eq fetch cfg s retry hr hf, if_neg hg]
          exact ⟨⟨h1, h2⟩, ih { s with calls := s.calls + 1 } (retry + 1)
            (by omega) h1 h2⟩
    · rw [attemptLoop_stop fetch cfg s retry hr]
      simp [fetchBounds]

/-! ## Outer loop: general run lemmas -/

/-- Bookkeeping and trace shape of every terminating run of the outer
loop, for an arbitrary fetch capability: collected grows by exactly the
records received, the offset by exactly the requested counts of the
successful fetches, an undersized page is the final event and leaves the
run exhausted with outcome `done`, every failed fetch is retried at the
same offset with the same requested count, and a `gaveUp` outcome leaves
the exhausted flag set. -/
theorem outerLoop_spec (fetch : Fetch) (cfg : Config) :
    ∀ (fuel : Nat) (s : TaskState) (r : RunResult),
      outerLoop fetch cfg fuel s = some r →
      r.state.collected.length = s.collected.length + receivedSum r.events ∧
      r.state.offset = s.offset + okRequestedSum r.events ∧
      undersizedStops r.events ∧
      (hasUndersized r.events = true →
        r.state.exhausted = true ∧ r.outcome = .done) ∧
      retrySameOffset r.events ∧
      (r.outcome = .gaveUp → r.state.exhausted = true) := by
  intro fuel
  induction fuel with
  | zero => intro s r h; simp [outerLoop] at h
  | succ fuel ih =>
    intro s r h
    rw [outerLoop] at h
    by_cases hc : s.collected.length < cfg.results_wanted ∧ s.exhausted = false
    · rw [if_pos hc] at h
      obtain ⟨hs1, hs2, hs3, hs4, hs5, hs6, hs7⟩ := attemptLoop_state fetch cfg s 0
      obtain ⟨ht1, ht2, ht3, ht4, ht5⟩ := attemptLoop_trace fetch cfg s 0
      rcases hA : attemptLoop fetch cfg s 0 with ⟨s', evs, exit⟩
      rw [hA] at h hs1 hs2 hs3 hs4 hs5 hs6 hs7 ht1 ht2 ht3 ht4 ht5
      simp only at h hs1 hs2 hs3 hs4 hs5 hs6 hs7 ht1 ht2 ht3 ht4 ht5
      cases exit with
      | continueOuter =>
        rcases hR : outerLoop fetch cfg fuel s' with _ | r'
        · rw [hR] at h; simp at h
        · rw [hR] at h
          simp only [Option.some.injEq] at h
          subst h
          obtain ⟨ihl, iho, ihu, ihh, ihr, ihg⟩ := ih s' r' hR
          have hnoU : hasUndersized evs = false := by
            by_contra hx
            simp only [Bool.not_eq_false] at hx
            exact absurd (ht3 hx) (by simp)
          refine ⟨?_, ?_, ?_, ?_, ?_, ?_⟩
          · simp only [receivedSum_append]
            omega
          · simp only [okRequestedSum_append]
            omega
          · exact undersizedStops_append ht2 hnoU ihu
          · intro hx
            rw [hasUndersized_append, hnoU, Bool.false_or] at hx
            exact ihh hx
          · exact retrySameOffset_append ht4 ihr (Or.inl (ht5 (by simp)))
          · exact ihg
      | noAttempt =>
        obtain ⟨hlt, hseq, hevs⟩ := hs3 rfl
        rcases hR : outerLoop fetch cfg fuel s' with _ | r'
        · rw [hR] at h; simp at h
        · rw [hR] at h
          simp only [Option.some.injEq] at h
          subst h
          obtain ⟨ihl, iho, ihu, ihh, ihr, ihg⟩ := ih s' r' hR
          subst hevs
          subst hseq
          simpa using ⟨ihl, iho, ihu, ihh, ihr, ihg⟩
      | exhaustedPage =>
        simp only [Option.some.injEq] at h
        subst h
        exact ⟨hs1, hs2, ht2, fun _ => ⟨hs5 rfl, rfl⟩, ht4, by simp⟩
      | target =>
        simp only [Option.some.injEq] at h
        subst h
        refine ⟨hs1, hs2, ht2, ?_, ht4, by simp⟩
        intro hx
        exact absurd (ht3 hx) (by simp)
      | gaveUp =>
        simp only [Option.some.injEq] at h
        subst h
        refine ⟨hs1, hs2, ht2, ?_, ht4, fun _ => (hs4 rfl).1⟩
        intro hx
        exact absurd (ht3 hx) (by simp)
    · rw [if_neg hc] at h
      simp only [Option.some.injEq] at h
      subst h
      simp [receivedSum, okRequestedSum, undersizedStops, hasUndersized,
        retrySameOffset]

/-- Under a bounded fetch capability, every terminating run issues each
fetch at an offset equal to the records received so far, never collects
more than `results_wanted` records, and (when `batch_size ≥ 1`) requests
between 1 and `batch_size` records per fetch. -/
theorem outerLoop_bounded (fetch : Fetch) (cfg : Config) (hb : FetchBounded fetch) :
    ∀ (fuel : Nat) (s : TaskState) (r : RunResult),
      outerLoop fetch cfg fuel s = some r →
      offsetsMatchReceived s.offset r.events ∧
      (s.collected.length ≤ cfg.results_wanted →
        r.state.collected.length ≤ cfg.results_wanted) ∧
      (1 ≤ cfg.batch_size → fetchBounds cfg.batch_size r.events) := by
  intro fuel
  induction fuel with
  | zero => intro s r h; simp [outerLoop] at h
  | succ fuel ih =>
    intro s r h
    rw [outerLoop] at h
    by_cases hc : s.collected.length < cfg.results_wanted ∧ s.exhausted = false
    · rw [if_pos hc] at h
      obtain ⟨hs1, hs2, hs3, hs4, hs5, hs6, hs7⟩ := attemptLoop_state fetch cfg s 0
      obtain ⟨ht1, ht2, ht3, ht4, ht5⟩ := attemptLoop_trace fetch cfg s 0
      obtain ⟨hb1, hb2⟩ := attemptLoop_bounded fetch cfg s 0 hb
      have hfb := attemptLoop_fetchBounds fetch cfg s 0
      rcases hA : attemptLoop fetch cfg s 0 with ⟨s', evs, exit⟩
      rw [hA] at hs1 hs2 hs3 hs4 hs5 hs6 hs7 ht1 ht2 ht3 ht4 ht5 hb1 hb2 hfb h
      simp only at hs1 hs2 hs3 hs4 hs5 hs6 hs7 ht1 ht2 ht3 ht4 ht5 hb1 hb2 hfb h
      cases exit with
      | continueOuter =>
        rcases hR : outerLoop fetch cfg fuel s' with _ | r'
        · rw [hR] at h; simp at h
        · rw [hR] at h
          simp only [Option.some.injEq] at h
          subst h
          obtain ⟨iho, ihc, ihf⟩ := ih s' r' hR
          refine ⟨?_, ?_, ?_⟩
          · refine offsetsMatchReceived_append ht1 ?_
            have : s'.offset = s.offset + receivedSum evs := by
              rw [hs2, hb1 rfl]
            simpa [this] using iho
          · intro _
            exact ihc (hb2 hc.1)
          · intro hB
            exact fetchBounds_append (hfb hB hc.1) (ihf hB)
      | noAttempt =>
        obtain ⟨hlt, hseq, hevs⟩ := hs3 rfl
        rcases hR : outerLoop fetch cfg fuel s' with _ | r'
        · rw [hR] at h; simp at h
        · rw [hR] at h
          simp only [Option.some.injEq] at h
          subst h
          obtain ⟨iho, ihc, ihf⟩ := ih s' r' hR
          subst hevs
          subst hseq
          simpa using ⟨iho, ihc, ihf⟩
      | exhaustedPage =>
        simp only [Option.some.injEq] at h
        subst h
        exact ⟨ht1, fun _ => hb2 hc.1, fun hB => hfb hB hc.1⟩
      | target =>
        simp only [Option.some.injEq] at h
        subst h
        exact ⟨ht1, fun _ => hb2 hc.1, fun hB => hfb hB hc.1⟩
      | gaveUp =>
        simp only [Option.some.injEq] at h
        subst h
        exact ⟨ht1, fun _ => hb2 hc.1, fun hB => hfb hB hc.1⟩
    · rw [if_neg hc] at h
      simp only [Option.some.injEq] at h
      subst h
      simp [offsetsMatchReceived, fetchBounds]

/-! ## Outer loop: special scenarios -/

/-- With `max_retries = 0` the inner `while retry_count < max_retries`
never runs, so the state never changes and the outer loop spins without
terminating — for any fetch capability whatsoever. -/
theorem outerLoop_none_of_maxRetries_zero (fetch : Fetch) (cfg : Config)
    (h0 : cfg.max_retries = 0) :
    ∀ (fuel : Nat) (s : TaskState),
      s.collected.length < cfg.results_wanted → s.exhausted = false →
      outerLoop fetch cfg fuel s = none := by
  intro fuel
  induction fuel with
  | zero => intro s _ _; rfl
  | succ fuel ih =>
    intro s h1 h2
    rw [outerLoop, if_pos ⟨h1, h2⟩,
      attemptLoop_stop fetch cfg s 0 (by omega)]
    simp [ih s h1 h2]

/-- With `max_retries = 0` a task that still wants records never
terminates and never issues a single fetch call. -/
theorem scrapeSingleSite_none_of_maxRetries_zero (fetch : Fetch) (cfg : Config)
    (h0 : cfg.max_retries = 0) (hW : 1 ≤ cfg.results_wanted) :
    loopsForever fetch cfg := by
  intro fuel
  exact outerLoop_none_of_maxRetries_zero fetch cfg h0 fuel _ (by simpa using hW) rfl

/-- A fetch capability that fails on every call. -/
def AlwaysFails (fetch : Fetch) : Prop :=
  ∀ i off req, fetch i off req = .failure

/-- Against an always-failing fetch capability the attempt loop performs
exactly its remaining `max_retries - retry` attempts, each failed and
followed by its error-retry sleep, and gives up with nothing collected. -/
theorem attemptLoop_alwaysFails (fetch : Fetch) (cfg : Config)
    (hfail : AlwaysFails fetch) :
    ∀ (n : Nat) (s : TaskState) (retry : Nat), retry + n = cfg.max_retries → 1 ≤ n →
      attemptLoop fetch cfg s retry =
        ({ s with exhausted := true, calls := s.calls + n },
          failTrace s.offset (requestedOf cfg s) cfg.sleep_time retry n,
          .gaveUp) := by
  intro n
  induction n with
  | zero => intro s retry _ h1; omega
  | succ n ih =>
    intro s retry hn _
    have hr : retry < cfg.max_retries := by omega
    rw [attemptLoop_failure_eq fetch cfg s retry hr (hfail _ _ _)]
    by_cases hg : cfg.max_retries ≤ retry + 1
    · rw [if_pos hg]
      have hn0 : n = 0 := by omega
      subst hn0
      simp [failTrace]
    · rw [if_neg hg]
      rw [ih { s with calls := s.calls + 1 } (retry + 1) (by omega) (by omega)]
      simp only [failTrace, requestedOf]
      refine congrArg₂ _ ?_ (congrArg₂ _ ?_ rfl)
      · congr 1
        omega
      · rfl

/-- The error-retry sleep durations of a block of `k` consecutive
failures entered at retry counter `r`: `sleep*(r+2), …, sleep*(r+k+1)`. -/
theorem retrySleeps_failTrace (off req sleep : Nat) :
    ∀ (k r : Nat),
      retrySleeps (failTrace off req sleep r k) =
        (List.range k).map (fun i => sleep * (r + i + 2)) := by
  intro k
  induction k with
  | zero => intro r; rfl
  | succ k ih =>
    intro r
    rw [List.range_succ_eq_map]
    simp only [failTrace, retrySleeps, List.map_cons, List.map_map]
    rw [ih (r + 1)]
    refine List.cons_eq_cons.mpr ⟨by ring_nf, ?_⟩
    refine List.map_congr_left ?_
    intro a _
    simp only [Function.comp_apply, Nat.succ_eq_add_one]
    ring

/-- Against an always-failing fetch capability, with `max_retries ≥ 1`
and records still wanted, the whole run terminates in the first outer
iteration: `max_retries` failed attempts, the matching error-retry
sleeps, nothing collected, outcome `gaveUp`. -/
theorem scrapeSingleSite_alwaysFails (fetch : Fetch) (cfg : Config) (fuel : Nat)
    (hfail : AlwaysFails fetch) (hN : 1 ≤ cfg.max_retries)
    (hW : 1 ≤ cfg.results_wanted) (hfuel : 1 ≤ fuel) :
    scrapeSingleSite fetch cfg fuel =
      some ⟨⟨0, [], true, cfg.max_retries⟩,
        failTrace 0 (min cfg.batch_size cfg.results_wanted) cfg.sleep_time 0
          cfg.max_retries,
        .gaveUp⟩ := by
  obtain ⟨fuel', rfl⟩ : ∃ k, fuel = k + 1 := ⟨fuel - 1, by omega⟩
  unfold scrapeSingleSite
  rw [outerLoop, if_pos (by simp; omega)]
  rw [attemptLoop_alwaysFails fetch cfg hfail cfg.max_retries _ 0 (by omega) hN]
  simp [requestedOf]

theorem ceilDiv_pos (a b : Nat) (ha : 1 ≤ a) (hb : 1 ≤ b) : 1 ≤ ceilDiv a b := by
  unfold ceilDiv
  rw [Nat.le_div_iff_mul_le hb]
  omega

theorem ceilDiv_eq_one (a b : Nat) (h1 : 1 ≤ a) (h2 : a ≤ b) : ceilDiv a b = 1 := by
  unfold ceilDiv
  have hb : 0 < b := by omega
  have ha : a + b - 1 = (a - 1) + b := by omega
  rw [ha, Nat.add_div_right _ hb, Nat.div_eq_of_lt (by omega)]

theorem ceilDiv_succ (a b : Nat) (hb : 0 < b) (h : b < a) :
    ceilDiv a b = ceilDiv (a - b) b + 1 := by
  unfold ceilDiv
  have ha : a + b - 1 = ((a - b) + b - 1) + b := by omega
  rw [ha, Nat.add_div_right _ hb]

/-- A fetch capability behaving like the pagination stub of spec §8:
every call succeeds and returns exactly `min(requested, B)` records. -/
def FullPages (B : Nat) (fetch : Fetch) : Prop :=
  ∀ i off req, ∃ recs, fetch i off req = .success recs ∧ recs.length = min req B

/-- Pagination: against a full-page stub, starting from `j` completed
full batches, the run terminates with exactly `results_wanted` records,
not exhausted, outcome `done`, and issues exactly
`⌈(results_wanted - j·B) / B⌉` further fetch calls at offsets
`j·B, (j+1)·B, …`, each requesting (and receiving)
`min(B, results_wanted - offset)`. -/
theorem outerLoop_fullPages (fetch : Fetch) (cfg : Config)
    (hstub : FullPages cfg.batch_size fetch) (hB : 1 ≤ cfg.batch_size)
    (hN : 1 ≤ cfg.max_retries) :
    ∀ (fuel j k : Nat) (cs : List Job),
      cs.length = j * cfg.batch_size →
      j * cfg.batch_size < cfg.results_wanted →
      ceilDiv (cfg.results_wanted - j * cfg.batch_size) cfg.batch_size ≤ fuel →
      ∃ r, outerLoop fetch cfg fuel ⟨j * cfg.batch_size, cs, false, k⟩ = some r ∧
        r.state.collected.length = cfg.results_wanted ∧
        r.state.exhausted = false ∧
        r.outcome = .done ∧
        fetchEvents r.events =
          (List.range
              (ceilDiv (cfg.results_wanted - j * cfg.batch_size) cfg.batch_size)).map
            (fun i => .fetch ((j + i) * cfg.batch_size)
              (min cfg.batch_size (cfg.results_wanted - (j + i) * cfg.batch_size))
              (min cfg.batch_size (cfg.results_wanted - (j + i) * cfg.batch_size))
              true) := by
  intro fuel
  induction fuel with
  | zero =>
    intro j k cs hcs hlt hfuel
    have hpos := ceilDiv_pos (cfg.results_wanted - j * cfg.batch_size) cfg.batch_size
      (by omega) hB
    omega
  | succ fuel ih =>
    intro j k cs hcs hlt hfuel
    set B := cfg.batch_size with hBdef
    set W := cfg.results_wanted with hWdef
    have hq : requestedOf cfg ⟨j * B, cs, false, k⟩ = min B (W - j * B) := by
      simp [requestedOf, hcs]
    obtain ⟨recs, hf, hrecs⟩ := hstub k (j * B) (min B (W - j * B))
    have hrecs' : recs.length = min B (W - j * B) := by
      rw [hrecs]
      omega
    rw [outerLoop, if_pos (by simp [hcs, hlt])]
    rw [attemptLoop_success_eq fetch cfg _ 0 recs (by omega) (by rw [hq]; exact hf)]
    rw [hq]
    simp only
    rw [if_neg (by omega)]
    by_cases hlast : W - j * B ≤ B
    · have hqq : min B (W - j * B) = W - j * B := by omega
      rw [if_pos (by simp [hcs]; omega)]
      refine ⟨_, rfl, ?_, rfl, rfl, ?_⟩
      · simp [hcs]
        omega
      · rw [ceilDiv_eq_one _ _ (by omega) hlast]
        simp [fetchEvents, hqq, hrecs', List.range_succ]
    · have hqq : min B (W - j * B) = B := by omega
      rw [if_neg (by simp [hcs]; omega)]
      have hstep : j * B + min B (W - j * B) = (j + 1) * B := by
        rw [hqq]
        ring
      have hlen : (cs ++ recs).length = (j + 1) * B := by
        simp [hcs, hrecs', hqq]
        ring
      have hlt' : (j + 1) * B < W := by
        have : (j + 1) * B = j * B + B := by ring
        omega
      have hsub : W - (j + 1) * B = (W - j * B) - B := by
        have hx : (j + 1) * B = j * B + B := by ring
        omega
      have hcd := ceilDiv_succ (W - j * B) B (by omega) (by omega)
      have hfuel' : ceilDiv (W - (j + 1) * B) B ≤ fuel := by
        rw [hsub]
        omega
      obtain ⟨r', hr', hr1, hr2, hr3, hr4⟩ := ih (j + 1) (k + 1) (cs ++ recs) hlen hlt' hfuel'
      rw [hstep]
      rw [hr']
      refine ⟨_, rfl, hr1, hr2, hr3, ?_⟩
      rw [fetchEvents_append]
      have hone : fetchEvents [Event.fetch (j * B) (min B (W - j * B))
          recs.length true, Event.paceSleep cfg.sleep_time] =
          [Event.fetch (j * B) (min B (W - j * B)) (min B (W - j * B)) true] := by
        simp [fetchEvents, hrecs']
      rw [hone, hr4]
      have hn : ceilDiv (W - j * B) B =
          ceilDiv (W - (j + 1) * B) B + 1 := by
        rw [hsub]
        exact hcd
      rw [hn, List.range_succ_eq_map]
      simp only [List.map_cons, List.map_map]
      refine List.cons_eq_cons.mpr ⟨?_, ?_⟩
      · simp [hqq]
      · refine (List.map_congr_left ?_).symm
        intro a _
        simp only [Function.comp_apply, Nat.succ_eq_add_one]
        have : j + (a + 1) = j + 1 + a := by omega
        rw [this]

/-- C5, amended.  Pagination: for `results_wanted = W ≥ 1`,
`batch_size = B ≥ 1` and `max_retries ≥ 1`, against a stub that always
returns exactly `min(requested, B)` records, the task issues exactly
`⌈W/B⌉` fetch calls at offsets `0, B, 2B, …`, each requesting (and
receiving) `min(B, W - offset)`, and terminates with exactly `W` records
collected, `exhausted = false`, outcome `done` (the reached-target
branch).  (With `max_retries = 0` the task instead loops forever and
never issues a fetch, which is what forces the `max_retries ≥ 1`
hypothesis absent from the original claim.) -/
theorem C5_pagination (fetch : Fetch) (cfg : Config) (fuel : Nat)
    (hstub : FullPages cfg.batch_size fetch) (hB : 1 ≤ cfg.batch_size)
    (hN : 1 ≤ cfg.max_retries) (hW : 1 ≤ cfg.results_wanted)
    (hfuel : ceilDiv cfg.results_wanted cfg.batch_size ≤ fuel) :
    ∃ r, scrapeSingleSite fetch cfg fuel = some r ∧
      r.state.collected.length = cfg.results_wanted ∧
      r.state.exhausted = false ∧
      r.outcome = .done ∧
      fetchEvents r.events =
        (List.range (ceilDiv cfg.results_wanted cfg.batch_size)).map
          (fun i => .fetch (i * cfg.batch_size)
            (min cfg.batch_size (cfg.results_wanted - i * cfg.batch_size))
            (min cfg.batch_size (cfg.results_wanted - i * cfg.batch_size))
            true) := by
  obtain ⟨r, hr, h1, h2, h3, h4⟩ :=
    outerLoop_fullPages fetch cfg hstub hB hN fuel 0 0 []
      (by simp) (by simpa using hW) (by simpa using hfuel)
  refine ⟨r, ?_, h1, h2, h3, ?_⟩
  · unfold scrapeSingleSite
    simpa using hr
  · rw [h4]
    simp

/-! ## The pre-spawn dispatch logic of `main` (cli.py lines 204–286) -/

/-- The fixed colour palette of `main` (cli.py line 246). -/
def site_colors : List String :=
  ["cyan", "green", "yellow", "magenta", "blue", "red"]

/-- What `main` does before running any task: either it exits early
because no site was given (cli.py lines 248–251), or it submits one task
per site to the thread pool (cli.py lines 256–286). -/
inductive MainOutcome where
  | exitNoSites
  | spawned (tasks : List (String × String × String))
  deriving DecidableEq, Repr

/-- The per-site task parameters `main` computes when submitting
(cli.py lines 258–262): the site name, the colour
`site_colors[i % len(site_colors)]` and the `prefix` string
`"[" + site_name.upper() + "] "`. -/
def spawnPlan (sites : List String) : List (String × String × String) :=
  sites.enum.map (fun p =>
    (p.2, site_colors.getD (p.1 % site_colors.length) "",
      "[" ++ p.2.toUpper ++ "] "))

/-- The dispatch decision of `main` (cli.py lines 204–286): after
parsing, `main` checks only `if not site` before the executor block; the
numeric options (`results_wanted`, `batch_size`, `sleep_time`,
`max_retries`) are passed straight through to the tasks without any
validation, and no `ConfigurationError` (or any other validation error)
exists anywhere in the program. -/
def mainDispatch (sites : List String)
    (results_wanted batch_size sleep_time max_retries : Int) : MainOutcome :=
  if sites.isEmpty then .exitNoSites
  else .spawned (spawnPlan sites)

/-! ## The aggregation loop of `main` (cli.py lines 288–301) -/

/-- What one completed future delivers to the aggregation loop: the
job list returned by `_scrape_single_site`, or the exception it
raised (`future.result()` re-raises it, cli.py line 291). -/
abbrev SiteOutput := Except String (List Job)

/-- What the aggregation loop reports per completed site: the
"Completed. Found N jobs." message with the site's stored prefix
(cli.py line 295), or the error log, also under the site's stored
prefix (cli.py line 301). -/
inductive OrchEvent where
  | completed (pfx : String) (count : Nat)
  | taskError (pfx : String)
  deriving DecidableEq, Repr

/-- The `for future in concurrent.futures.as_completed(...)` loop of
`main` (cli.py lines 288–301), over the site results in completion
order: a successful future's jobs are appended to `all_jobs_collected`
and its count echoed; a raised exception is caught, logged with that
site's prefix, and the loop continues with the next future. -/
def collectLoop : List (String × SiteOutput) → List Job → List Job × List OrchEvent
  | [], acc => (acc, [])
  | (pfx, .ok jobs) :: rest, acc =>
    let r := collectLoop rest (acc ++ jobs)
    (r.1, .completed pfx jobs.length :: r.2)
  | (pfx, .error _) :: rest, acc =>
    let r := collectLoop rest acc
    (r.1, .taskError pfx :: r.2)

/-- The aggregation of `main`, starting from `all_jobs_collected = []`
(cli.py line 244). -/
def orchestrate (results : List (String × SiteOutput)) : List Job × List OrchEvent :=
  collectLoop results []

/-- The number of jobs one site contributes to the aggregate: its job
count on success, nothing on a raised exception. -/
def siteCount (o : SiteOutput) : Nat :=
  match o with
  | .ok jobs => jobs.length
  | .error _ => 0

/-- The report entry the aggregation loop emits for one site. -/
def siteReport (p : String × SiteOutput) : OrchEvent :=
  match p.2 with
  | .ok jobs => .completed p.1 jobs.length
  | .error _ => .taskError p.1

/-- The aggregation loop processes every site (a raised exception does
not abort it), its final job count is the sum of the per-site counts,
and it reports each site under that site's own stored prefix. -/
theorem collectLoop_spec :
    ∀ (results : List (String × SiteOutput)) (acc : List Job),
      (collectLoop results acc).1.length =
        acc.length + (results.map (fun p => siteCount p.2)).sum ∧
      (collectLoop results acc).2 = results.map siteReport := by
  intro results
  induction results with
  | nil => intro acc; simp [collectLoop]
  | cons p rest ih =>
    intro acc
    rcases p with ⟨pfx, out⟩
    cases out with
    | ok jobs =>
      obtain ⟨ih1, ih2⟩ := ih (acc ++ jobs)
      refine ⟨?_, ?_⟩
      · simp only [collectLoop, List.map_cons, List.sum_cons]
        rw [ih1]
        simp [siteCount]
        omega
      · simp only [collectLoop, List.map_cons]
        rw [ih2]
        rfl
    | error e =>
      obtain ⟨ih1, ih2⟩ := ih acc
      refine ⟨?_, ?_⟩
      · simp only [collectLoop, List.map_cons, List.sum_cons]
        rw [ih1]
        simp [siteCount]
      · simp only [collectLoop, List.map_cons]
        rw [ih2]
        rfl

/-! ## The thread-local logging context (cli.py lines 11–40, 78–80, 174–176)

`log_context = threading.local()` gives every thread its own slot; a
task sets `log_context.prefix` / `log_context.color` on entry (lines
79–80), `SiteContextFormatter.format` reads the slot of the thread that
emits the record (lines 34–39) — formatting runs synchronously on the
emitting thread — and the task deletes its slot on exit (lines 175–176).
The model: thread-local storage is a map from thread id to an optional
context; each task runs wholly on its own thread; a schedule is an
arbitrary interleaving of the threads' steps. -/

/-- The per-task logging context: `logging_prefix` and `logging_color`
(cli.py lines 74–75). -/
structure LogCtx where
  pfx : String
  color : String
  deriving DecidableEq, Repr

/-- One step a task performs that touches logging: installing its
context in its thread's slot, emitting a log line, or deleting its
slot. -/
inductive TAction where
  | setContext (c : LogCtx)
  | emitLog (msg : String)
  | clearContext
  deriving DecidableEq, Repr

/-- A formatted log line: the emitting thread, the decoration the
formatter read from that thread's slot at format time, and the
message. -/
structure LogLine where
  tid : Nat
  decoration : Option LogCtx
  msg : String
  deriving DecidableEq, Repr

/-- Thread-local storage (`threading.local()`): one slot per thread. -/
abbrev TLS := Nat → Option LogCtx

/-- The remaining actions of each thread. -/
abbrev Scripts := Nat → List TAction

/-- Run the threads under an arbitrary interleaving: each schedule entry
lets the named thread perform its next action (a thread with nothing
left to do is skipped).  `emitLog` decorates with whatever the emitting
thread's own slot holds at that instant, exactly as
`SiteContextFormatter.format` does. -/
def runSched : List Nat → Scripts → TLS → List LogLine
  | [], _, _ => []
  | t :: sched, scripts, tls =>
    match scripts t with
    | [] => runSched sched scripts tls
    | TAction.setContext c :: rest =>
        runSched sched (fun u => if u = t then rest else scripts u)
          (fun u => if u = t then some c else tls u)
    | TAction.emitLog m :: rest =>
        ⟨t, tls t, m⟩ ::
          runSched sched (fun u => if u = t then rest else scripts u) tls
    | TAction.clearContext :: rest =>
        runSched sched (fun u => if u = t then rest else scripts u)
          (fun u => if u = t then none else tls u)

/-- The logging behaviour of `_scrape_single_site` on its thread: set
the context first (cli.py lines 79–80), emit log lines while working,
delete the context last (lines 175–176). -/
def taskScript (c : LogCtx) (msgs : List String) : List TAction :=
  TAction.setContext c :: (msgs.map TAction.emitLog ++ [TAction.clearContext])

/-- Where a task's thread can be during execution: not yet started (its
slot empty), mid-run (its slot holding exactly its own context), or
finished (its slot empty again). -/
def TaskPhase (c : LogCtx) (script : List TAction) (slot : Option LogCtx) : Prop :=
  (∃ msgs, script = taskScript c msgs ∧ slot = none) ∨
  (∃ msgs : List String,
    script = msgs.map TAction.emitLog ++ [TAction.clearContext] ∧ slot = some c) ∨
  (script = [] ∧ slot = none)

/-- Isolation: whatever the interleaving, every emitted log line is
decorated with the emitting task's own context — a task can never
observe or inherit another task's label, because each thread reads and
writes only its own thread-local slot. -/
theorem runSched_decorated (ctxOf : Nat → LogCtx) :
    ∀ (sched : List Nat) (scripts : Scripts) (tls : TLS),
      (∀ t, TaskPhase (ctxOf t) (scripts t) (tls t)) →
      ∀ line ∈ runSched sched scripts tls,
        line.decoration = some (ctxOf line.tid) := by
  intro sched
  induction sched with
  | nil => intro scripts tls _ line hline; simp [runSched] at hline
  | cons t sched ih =>
    intro scripts tls hinv line hline
    rw [runSched] at hline
    rcases hs : scripts t with _ | ⟨act, rest⟩
    · rw [hs] at hline
      exact ih scripts tls hinv line hline
    · rw [hs] at hline
      have hphase := hinv t
      cases act with
      | setContext c =>
        obtain ⟨msgs, hscript, hslot⟩ :
            ∃ msgs, scripts t = taskScript (ctxOf t) msgs ∧ tls t = none := by
          rcases hphase with h | h | h
          · exact h
          · obtain ⟨msgs, hscript, _⟩ := h
            rw [hs] at hscript
            cases msgs with
            | nil => simp at hscript
            | cons m ms => simp at hscript
          · obtain ⟨h1, _⟩ := h
            rw [hs] at h1
            simp at h1
        rw [hs] at hscript
        unfold taskScript at hscript
        simp only [List.cons.injEq, TAction.setContext.injEq] at hscript
        obtain ⟨hc, hrest⟩ := hscript
        refine ih _ _ ?_ line hline
        intro u
        show TaskPhase (ctxOf u) (if u = t then rest else scripts u)
          (if u = t then some c else tls u)
        by_cases hu : u = t
        · subst hu
          rw [if_pos rfl, if_pos rfl]
          exact Or.inr (Or.inl ⟨msgs, hrest, by rw [hc]⟩)
        · rw [if_neg hu, if_neg hu]
          exact hinv u
      | emitLog m =>
        obtain ⟨msgs, hscript, hslot⟩ :
            ∃ msgs : List String,
              scripts t = msgs.map TAction.emitLog ++ [TAction.clearContext] ∧
                tls t = some (ctxOf t) := by
          rcases hphase with h | h | h
          · obtain ⟨msgs, hscript, _⟩ := h
            rw [hs] at hscript
            unfold taskScript at hscript
            simp at hscript
          · exact h
          · obtain ⟨h1, _⟩ := h
            rw [hs] at h1
            simp at h1
        rw [hs] at hscript
        obtain ⟨msgs', hrest⟩ : ∃ msgs' : List String,
            rest = msgs'.map TAction.emitLog ++ [TAction.clearContext] := by
          cases msgs with
          | nil => simp at hscript
          | cons m0 ms =>
            simp only [List.map_cons, List.cons_append, List.cons.injEq] at hscript
            exact ⟨ms, hscript.2⟩
        rcases List.mem_cons.mp hline with hline | hline
        · rw [hline]
          simpa using hslot
        · refine ih _ _ ?_ line hline
          intro u
          show TaskPhase (ctxOf u) (if u = t then rest else scripts u) (tls u)
          by_cases hu : u = t
          · subst hu
            rw [if_pos rfl]
            exact Or.inr (Or.inl ⟨msgs', hrest, hslot⟩)
          · rw [if_neg hu]
            exact hinv u
      | clearContext =>
        obtain ⟨msgs, hscript, hslot⟩ :
            ∃ msgs : List String,
              scripts t = msgs.map TAction.emitLog ++ [TAction.clearContext] ∧
                tls t = some (ctxOf t) := by
          rcases hphase with h | h | h
          · obtain ⟨msgs, hscript, _⟩ := h
            rw [hs] at hscript
            unfold taskScript at hscript
            simp at hscript
          · exact h
          · obtain ⟨h1, _⟩ := h
            rw [hs] at h1
            simp at h1
        rw [hs] at hscript
        have hrest : rest = [] := by
          cases msgs with
          | nil => simpa using hscript
          | cons m0 ms => simp at hscript
        refine ih _ _ ?_ line hline
        intro u
        show TaskPhase (ctxOf u) (if u = t then rest else scripts u)
          (if u = t then none else tls u)
        by_cases hu : u = t
        · subst hu
          rw [if_pos rfl, if_pos rfl]
          exact Or.inr (Or.inr ⟨hrest, rfl⟩)
        · rw [if_neg hu, if_neg hu]
          exact hinv u

/-! ## Concrete fetch stubs for witnesses and counterexamples -/

/-- A stub whose every call raises (`scrape_jobs` always throwing). -/
def alwaysFailFetch : Fetch := fun _ _ _ => .failure

/-- A stub whose every call succeeds with an empty dataframe. -/
def emptyPageFetch : Fetch := fun _ _ _ => .success []

/-- The pagination stub of spec §8: every call succeeds with exactly
`min(requested, B)` records. -/
def fullPageStub (B : Nat) : Fetch :=
  fun _ _ req => .success (List.replicate (min req B) 0)

/-- A stub that raises on the first call and from then on behaves like
the full-page stub. -/
def failOnceFetch (B : Nat) : Fetch :=
  fun i _ req => if i = 0 then .failure else .success (List.replicate (min req B) 0)

theorem fullPageStub_fullPages (B : Nat) : FullPages B (fullPageStub B) := by
  intro i off req
  exact ⟨_, rfl, by simp⟩

theorem fetchEvents_failTrace (off req sleep : Nat) :
    ∀ (k r : Nat),
      fetchEvents (failTrace off req sleep r k) =
        List.replicate k (.fetch off req 0 false) := by
  intro k
  induction k with
  | zero => intro r; rfl
  | succ k ih => intro r; simp [failTrace, fetchEvents, List.replicate_succ, ih]

/-- The validity predicate the spec (§3, §4.4) requires `main` to check
before spawning: `results_wanted>0`, `batch_size>0`, `sleep_time≥0`,
`max_retries≥0`, sites non-empty. -/
def ValidConfig (sites : List String) (rw bs st mr : Int) : Prop :=
  0 < rw ∧ 0 < bs ∧ 0 ≤ st ∧ 0 ≤ mr ∧ sites ≠ []

/-! ## The claims -/

/-- C1, counterexample.  The claim says the offset advances by the
number of records actually received, never by the requested count.  The
code (cli.py line 144) does `offset += iteration_results_wanted`: with a
fetch that successfully returns an empty page for a task wanting 10
records in batches of 3, the single batch receives 0 records yet the
final offset is 3 (the requested count), not 0. -/
theorem C1_counterexample :
    (scrapeSingleSite emptyPageFetch ⟨10, 3, 5, 3⟩ 4).map (fun r => r.state.offset) =
      some 3 ∧
    (scrapeSingleSite emptyPageFetch ⟨10, 3, 5, 3⟩ 4).map
      (fun r => receivedSum r.events) = some 0 ∧
    (3 : Nat) ≠ 0 := by
  refine ⟨rfl, rfl, by decide⟩

/-- C1, amended.  The offset advances by the requested count
(`iteration_results_wanted`) of every successful batch, so the final
offset is the sum of the requested counts of the successful batches
while the collected count is the sum of the records received.  Provided
the fetch capability returns at most the requested count (spec §6),
every batch after which the task continues was exactly full, so each
fetch call is still issued at an offset equal to the records received so
far — no record is skipped and none fetched twice; only an undersized
final batch (which terminates the task immediately) leaves the internal
offset ahead of the records received, and no fetch is issued at that
offset. -/
theorem C1_offset_advance (fetch : Fetch) (cfg : Config) (fuel : Nat)
    (r : RunResult) (hb : FetchBounded fetch)
    (h : scrapeSingleSite fetch cfg fuel = some r) :
    r.state.offset = okRequestedSum r.events ∧
    r.state.collected.length = receivedSum r.events ∧
    offsetsMatchReceived 0 r.events := by
  obtain ⟨h1, h2, _, _, _, _⟩ := outerLoop_spec fetch cfg fuel _ r h
  obtain ⟨h3, _, _⟩ := outerLoop_bounded fetch cfg hb fuel _ r h
  simp only [List.length_nil] at h1
  exact ⟨by simpa using h2, by simpa using h1, h3⟩

/-- C1, witness: the amended claim at the empty-page stub. -/
theorem C1_witness :
    (⟨⟨3, [], true, 1⟩, [.fetch 0 3 0 true], .done⟩ : RunResult).state.offset =
      okRequestedSum [.fetch 0 3 0 true] ∧
    (⟨⟨3, [], true, 1⟩, [.fetch 0 3 0 true], .done⟩ : RunResult).state.collected.length =
      receivedSum [.fetch 0 3 0 true] ∧
    offsetsMatchReceived 0 [.fetch 0 3 0 true] :=
  C1_offset_advance emptyPageFetch ⟨10, 3, 5, 3⟩ 4 _
    (fun i off req recs hr => by
      simp only [emptyPageFetch, FetchResult.success.injEq] at hr
      simp [← hr])
    (by decide)

/-- C2, counterexample.  The claim says a completed task returns a
`SiteResult` with an exhausted flag and an outcome kind so that a caller
receiving zero records can tell an exhausted site from one that gave up
after retries.  `_scrape_single_site` returns only `site_all_jobs`
(cli.py line 177): a task that gave up after retries and a task whose
first page was empty return the very same value `[]`, although their
outcomes differ. -/
theorem C2_counterexample :
    (scrapeSingleSite alwaysFailFetch ⟨10, 3, 5, 3⟩ 4).map taskReturn =
      (scrapeSingleSite emptyPageFetch ⟨10, 3, 5, 3⟩ 4).map taskReturn ∧
    (scrapeSingleSite alwaysFailFetch ⟨10, 3, 5, 3⟩ 4).map RunResult.outcome ≠
      (scrapeSingleSite emptyPageFetch ⟨10, 3, 5, 3⟩ 4).map RunResult.outcome := by
  refine ⟨rfl, by decide⟩

/-- C2, amended.  A completed site task returns only the collected
record sequence; no exhausted flag or outcome kind is part of the return
value, so a caller receiving zero records cannot distinguish a site that
was exhausted from one that gave up after retries: there are two
completed runs, one `gaveUp` and one exhausted `done`, whose returned
values are both `[]`. -/
theorem C2_task_returns_only_records :
    (∀ (fetch : Fetch) (cfg : Config) (fuel : Nat) (r : RunResult),
        scrapeSingleSite fetch cfg fuel = some r → taskReturn r = r.state.collected) ∧
    (∃ (f1 f2 : Fetch) (cfg : Config) (fuel : Nat) (r1 r2 : RunResult),
        scrapeSingleSite f1 cfg fuel = some r1 ∧
        scrapeSingleSite f2 cfg fuel = some r2 ∧
        r1.outcome = .gaveUp ∧ r2.outcome = .done ∧ r2.state.exhausted = true ∧
        taskReturn r1 = taskReturn r2 ∧ taskReturn r1 = []) := by
  refine ⟨fun _ _ _ _ _ => rfl,
    alwaysFailFetch, emptyPageFetch, ⟨10, 3, 5, 3⟩, 4,
    ⟨⟨0, [], true, 3⟩,
      [.fetch 0 3 0 false, .retrySleep 10, .fetch 0 3 0 false, .retrySleep 15,
        .fetch 0 3 0 false, .retrySleep 20], .gaveUp⟩,
    ⟨⟨3, [], true, 1⟩, [.fetch 0 3 0 true], .done⟩,
    by decide, by decide, rfl, rfl, rfl, rfl, rfl⟩

/-- C3, counterexample.  The claim says that with `max_retries = 0` a
single failure makes the task give up immediately.  In the code the
inner `while retry_count < max_retries` never runs when
`max_retries = 0`, so no fetch is ever attempted, nothing ever changes,
and the outer loop never terminates — the task neither gives up nor
returns. -/
theorem C3_counterexample :
    loopsForever alwaysFailFetch ⟨100, 30, 100, 0⟩ :=
  scrapeSingleSite_none_of_maxRetries_zero alwaysFailFetch ⟨100, 30, 100, 0⟩ rfl
    (by decide)

/-- C3, amended.  For `max_retries = N ≥ 1`, `results_wanted ≥ 1`, and a
fetch capability that always fails, the task performs exactly N failed
fetch attempts, each followed by its error-retry wait, with durations
`sleep_time*2, sleep_time*3, …, sleep_time*(N+1)`, and terminates with
nothing collected and outcome `gaveUp`.  (With `max_retries = 0` the
task instead loops forever without attempting a single fetch.) -/
theorem C3_retry_exhaustion (fetch : Fetch) (cfg : Config) (fuel : Nat)
    (hfail : AlwaysFails fetch) (hN : 1 ≤ cfg.max_retries)
    (hW : 1 ≤ cfg.results_wanted) (hfuel : 1 ≤ fuel) :
    ∃ r, scrapeSingleSite fetch cfg fuel = some r ∧
      r.state.collected = [] ∧ r.outcome = .gaveUp ∧
      retrySleeps r.events =
        (List.range cfg.max_retries).map (fun k => cfg.sleep_time * (k + 2)) ∧
      (fetchEvents r.events).length = cfg.max_retries := by
  refine ⟨_, scrapeSingleSite_alwaysFails fetch cfg fuel hfail hN hW hfuel,
    rfl, rfl, ?_, ?_⟩
  · rw [retrySleeps_failTrace]
    simp
  · rw [fetchEvents_failTrace]
    simp

/-- C3, witness: the amended claim at `max_retries = 3`,
`sleep_time = 5`: three failed attempts, waits of 10, 15, 20 seconds,
outcome `gaveUp`, nothing collected. -/
theorem C3_witness :
    ∃ r, scrapeSingleSite alwaysFailFetch ⟨10, 3, 5, 3⟩ 4 = some r ∧
      r.state.collected = [] ∧ r.outcome = .gaveUp ∧
      retrySleeps r.events = (List.range 3).map (fun k => 5 * (k + 2)) ∧
      (fetchEvents r.events).length = 3 :=
  C3_retry_exhaustion alwaysFailFetch ⟨10, 3, 5, 3⟩ 4 (fun _ _ _ => rfl)
    (by decide) (by decide) (by decide)

/-- C4, counterexample.  The claim says the configuration is validated
before any task is spawned and an invalid one fails fast with a
`ConfigurationError` and no task spawned.  `main` performs no such
validation: with `results_wanted = 0`, `batch_size = 0`,
`sleep_time = -1`, `max_retries = -1` — invalid on four counts — it
still submits a task for the one site given. -/
theorem C4_counterexample :
    mainDispatch ["linkedin"] 0 0 (-1) (-1) = .spawned (spawnPlan ["linkedin"]) ∧
    (spawnPlan ["linkedin"]).length = 1 ∧
    (spawnPlan ["linkedin"]).map (fun p => (p.1, p.2.1)) = [("linkedin", "cyan")] ∧
    ¬ ValidConfig ["linkedin"] 0 0 (-1) (-1) := by
  refine ⟨rfl, rfl, rfl, ?_⟩
  intro hv
  exact absurd hv.1 (by decide)

/-- C4, amended.  `main` never inspects the numeric configuration before
spawning: its dispatch is identical for any values of `results_wanted`,
`batch_size`, `sleep_time` and `max_retries`.  The only pre-spawn check
is `if not site` (cli.py line 248), which exits without spawning; with a
non-empty site list, one task per site is submitted, the i-th with
colour `site_colors[i % 6]` and prefix `"[SITE] "`, whatever the numeric
options are.  No `ConfigurationError` exists in the program. -/
theorem C4_no_validation (sites : List String)
    (rw bs st mr rw' bs' st' mr' : Int) :
    mainDispatch sites rw bs st mr = mainDispatch sites rw' bs' st' mr' ∧
    (mainDispatch sites rw bs st mr = .exitNoSites ↔ sites = []) ∧
    (sites ≠ [] → mainDispatch sites rw bs st mr = .spawned (spawnPlan sites)) := by
  unfold mainDispatch
  by_cases h : sites.isEmpty
  · rw [List.isEmpty_iff] at h
    subst h
    simp
  · rw [List.isEmpty_iff] at h
    simp [h]

/-- C5, counterexample.  The claim quantifies over every
`results_wanted W > 0` and `batch_size B > 0` with no condition on
`max_retries`.  With `W = 1`, `B = 1`, `max_retries = 0` and the
full-page stub, the claim promises one fetch call and termination with
one record; the code instead never runs the attempt loop and the task
never terminates. -/
theorem C5_counterexample :
    loopsForever (fullPageStub 1) ⟨1, 1, 0, 0⟩ :=
  scrapeSingleSite_none_of_maxRetries_zero (fullPageStub 1) ⟨1, 1, 0, 0⟩ rfl
    (by decide)

/-- C5, witness: the amended claim at the concrete scenario of spec §8 —
`results_wanted = 100`, `batch_size = 30`: 4 calls at offsets
0, 30, 60, 90 requesting 30, 30, 30, 10, ending with 100 records,
`exhausted = false`, outcome `done`. -/
theorem C5_witness :
    ∃ r, scrapeSingleSite (fullPageStub 30) ⟨100, 30, 7, 3⟩ 4 = some r ∧
      r.state.collected.length = 100 ∧
      r.state.exhausted = false ∧
      r.outcome = .done ∧
      fetchEvents r.events =
        (List.range (ceilDiv 100 30)).map
          (fun i => .fetch (i * 30) (min 30 (100 - i * 30)) (min 30 (100 - i * 30))
            true) :=
  C5_pagination (fullPageStub 30) ⟨100, 30, 7, 3⟩ 4 (fullPageStub_fullPages 30)
    (by decide) (by decide) (by decide) (by decide)

/-- C6.  If any fetch call returns fewer records than requested
(including zero records — exhaustion, not an error), the task terminates
immediately after that call: the undersized page is the final event of
the whole trace (so no further fetch call is issued, and no sleep
follows either), the exhausted flag is set, and the outcome is `done`. -/
theorem C6_early_exhaustion (fetch : Fetch) (cfg : Config) (fuel : Nat)
    (r : RunResult) (h : scrapeSingleSite fetch cfg fuel = some r) :
    undersizedStops r.events ∧
    (hasUndersized r.events = true → r.state.exhausted = true ∧ r.outcome = .done) := by
  obtain ⟨_, _, h3, h4, _, _⟩ := outerLoop_spec fetch cfg fuel _ r h
  exact ⟨h3, h4⟩

/-- C6, witness: a first page returning 0 of the 3 requested records is
the last event of the run, with the exhausted flag set and outcome
`done`. -/
theorem C6_witness :
    undersizedStops [Event.fetch 0 3 0 true] ∧
    (hasUndersized [Event.fetch 0 3 0 true] = true →
      (⟨⟨3, [], true, 1⟩, [Event.fetch 0 3 0 true], .done⟩ : RunResult).state.exhausted
          = true ∧
      (⟨⟨3, [], true, 1⟩, [Event.fetch 0 3 0 true], .done⟩ : RunResult).outcome =
        .done) :=
  C6_early_exhaustion emptyPageFetch ⟨10, 3, 5, 3⟩ 4
    ⟨⟨3, [], true, 1⟩, [Event.fetch 0 3 0 true], .done⟩ (by decide)

/-- C7.  A failed fetch attempt leaves the offset and the collected
sequence untouched (only `retry_count` and the sleep change, cli.py
lines 162–167), so whenever a failed fetch is followed by another fetch
attempt, that next attempt uses the same offset and the same requested
count — the failed page is retried, never skipped.  The fail-once
scenario is exhibited by the witness: one error-retry wait, then
pagination resumes from the same offset. -/
theorem C7_retry_same_page (fetch : Fetch) (cfg : Config) (fuel : Nat)
    (r : RunResult) (h : scrapeSingleSite fetch cfg fuel = some r) :
    retrySameOffset r.events := by
  obtain ⟨_, _, _, _, h5, _⟩ := outerLoop_spec fetch cfg fuel _ r h
  exact h5

/-- C7, witness: a stub failing once then succeeding, with
`results_wanted = 2`, `batch_size = 2`, `sleep_time = 5`,
`max_retries = 2`: the run is exactly fail at offset 0, one error-retry
wait of `5*2 = 10`, then a successful fetch at the same offset 0 with
the same requested count 2 — and the trace satisfies the
same-offset-retry property. -/
theorem C7_witness :
    scrapeSingleSite (failOnceFetch 2) ⟨2, 2, 5, 2⟩ 5 =
      some ⟨⟨2, [0, 0], false, 2⟩,
        [.fetch 0 2 0 false, .retrySleep 10, .fetch 0 2 2 true], .done⟩ ∧
    retrySameOffset [.fetch 0 2 0 false, .retrySleep 10, .fetch 0 2 2 true] :=
  ⟨by decide,
    C7_retry_same_page (failOnceFetch 2) ⟨2, 2, 5, 2⟩ 5
      ⟨⟨2, [0, 0], false, 2⟩,
        [.fetch 0 2 0 false, .retrySleep 10, .fetch 0 2 2 true], .done⟩ (by decide)⟩

/-- C8, counterexample.  The claim says the final per-site breakdown
labels each site's outcome.  The aggregation loop only ever sees the job
list a task returned (cli.py line 291): a site that gave up after
retries and a site that was exhausted with no matches produce the very
same breakdown entry ("Completed. Found 0 jobs."), although their
outcomes differ — outcomes cannot be labelled. -/
theorem C8_counterexample :
    (scrapeSingleSite alwaysFailFetch ⟨6, 2, 1, 2⟩ 4).map
        (fun r => (orchestrate [("[A] ", Except.ok (taskReturn r))]).2) =
      (scrapeSingleSite emptyPageFetch ⟨6, 2, 1, 2⟩ 4).map
        (fun r => (orchestrate [("[A] ", Except.ok (taskReturn r))]).2) ∧
    (scrapeSingleSite alwaysFailFetch ⟨6, 2, 1, 2⟩ 4).map RunResult.outcome ≠
      (scrapeSingleSite emptyPageFetch ⟨6, 2, 1, 2⟩ 4).map RunResult.outcome := by
  refine ⟨rfl, by decide⟩

/-- C8, amended.  The aggregation loop catches a raised task exception
at the future boundary, logs it under that site's stored prefix, and
continues with the remaining sites, so one misbehaving site never aborts
the run; the final total record count equals the sum of the individual
sites' counts (a failed site contributing zero); and the per-site
breakdown reports each site's record count (or its error), not an
outcome kind. -/
theorem C8_aggregation (results : List (String × SiteOutput)) :
    (orchestrate results).1.length = (results.map (fun p => siteCount p.2)).sum ∧
    (orchestrate results).2 = results.map siteReport := by
  have h := collectLoop_spec results []
  simpa [orchestrate] using h

/-- C9.  For any number of concurrent site tasks and any scheduling
interleaving, every log line emitted during a task's execution is
decorated with that task's own label/colour context and never with
another task's: each task's thread installs its context in its own
thread-local slot at entry, the formatter reads the emitting thread's
own slot, and no thread writes another thread's slot. -/
theorem C9_log_isolation (ctxOf : Nat → LogCtx) (msgsOf : Nat → List String)
    (sched : List Nat) :
    ∀ line ∈ runSched sched (fun t => taskScript (ctxOf t) (msgsOf t)) (fun _ => none),
      line.decoration = some (ctxOf line.tid) := by
  refine runSched_decorated ctxOf sched _ _ ?_
  intro t
  exact Or.inl ⟨msgsOf t, rfl, rfl⟩

/-- Context assignment of the C9 witness: thread 0 runs site A with
colour cyan, every other thread runs site B with colour green. -/
def ctxOfW : Nat → LogCtx :=
  fun t => if t = 0 then ⟨"[A] ", "cyan"⟩ else ⟨"[B] ", "green"⟩

/-- Messages of the C9 witness tasks. -/
def msgsOfW : Nat → List String :=
  fun t => if t = 0 then ["a1", "a2"] else ["b1"]

/-- C9, witness: two interleaved tasks (A's steps and B's steps
alternating); the log line B emits between A's context writes is
decorated with B's own context. -/
theorem C9_witness :
    (⟨1, some ⟨"[B] ", "green"⟩, "b1"⟩ : LogLine).decoration = some (ctxOfW 1) :=
  C9_log_isolation ctxOfW msgsOfW [0, 1, 0, 1, 0, 0, 1]
    ⟨1, some ⟨"[B] ", "green"⟩, "b1"⟩ (by decide)

/-- C10.  Assuming every fetch call returns at most the requested count
and `batch_size ≥ 1` (as the claim's own derivation
`requested = min(batch_size, results_wanted - collected.size)`
presupposes): the collected sequence never exceeds `results_wanted` at
any point of the run — the records gathered by any prefix of the trace
already stay within the target — and every fetch call requests at least
1 and at most `batch_size` records. -/
theorem C10_no_overshoot (fetch : Fetch) (cfg : Config) (fuel : Nat)
    (r : RunResult) (hb : FetchBounded fetch) (hB : 1 ≤ cfg.batch_size)
    (h : scrapeSingleSite fetch cfg fuel = some r) :
    r.state.collected.length ≤ cfg.results_wanted ∧
    (∀ l rest, r.events = l ++ rest → receivedSum l ≤ cfg.results_wanted) ∧
    fetchBounds cfg.batch_size r.events := by
  obtain ⟨hlen, _, _, _, _, _⟩ := outerLoop_spec fetch cfg fuel _ r h
  obtain ⟨_, hcap, hfb⟩ := outerLoop_bounded fetch cfg hb fuel _ r h
  have hcap' : r.state.collected.length ≤ cfg.results_wanted := hcap (by simp)
  refine ⟨hcap', ?_, hfb hB⟩
  intro l rest hsplit
  have : receivedSum r.events = receivedSum l + receivedSum rest := by
    rw [hsplit, receivedSum_append]
  simp only [List.length_nil] at hlen
  omega

/-- C10, witness: the no-overshoot bounds at the empty-page stub. -/
theorem C10_witness :
    (⟨⟨3, [], true, 1⟩, [Event.fetch 0 3 0 true], .done⟩ :
        RunResult).state.collected.length ≤ 10 ∧
    (∀ l rest, [Event.fetch 0 3 0 true] = l ++ rest → receivedSum l ≤ 10) ∧
    fetchBounds 3 [Event.fetch 0 3 0 true] :=
  C10_no_overshoot emptyPageFetch ⟨10, 3, 5, 3⟩ 4
    ⟨⟨3, [], true, 1⟩, [Event.fetch 0 3 0 true], .done⟩
    (fun i off req recs hr => by
      simp only [emptyPageFetch, FetchResult.success.injEq] at hr
      simp [← hr])
    (by decide) (by decide)

end Jobsparser
